import Mathlib

/-!
Verification of the ashpd backend dispatch core (src/backend/) against its
specification.  The Rust sources are shallowly embedded: channels become
explicit buffer states, async suspension becomes an explicit outcome
constructor, and each fallible external collaborator (zbus, std) becomes an
explicit outcome parameter.
-/

namespace Ashpd

/-! ## Opaque payload types of the data model -/

/-- Opaque D-Bus object path (`zvariant::OwnedObjectPath`). -/
structure OwnedObjectPath where
  path : String
deriving DecidableEq, Repr

/-- Application id (src/app_id.rs): newtype over a string, equality by value. -/
structure AppID where
  raw : String
deriving DecidableEq, Repr

/-- Opaque window identifier; consumed only by the external window resolver. -/
structure WindowIdentifierType where
  raw : String
deriving DecidableEq, Repr

/-- Opaque URL (`url::Url`). -/
structure Url where
  raw : String
deriving DecidableEq, Repr

/-- Modelled from the spec: `SetOn` (desktop/wallpaper.rs is absent from src/):
where the wallpaper is applied. -/
inductive SetOn
  | background
  | lockscreen
  | both
deriving DecidableEq, Repr

/-- WallpaperOptions (src/backend/wallpaper.rs:21-28). -/
structure WallpaperOptions where
  showPreview : Option Bool
  setOn : Option SetOn
deriving DecidableEq, Repr

/-- Modelled from the spec: `Response<T>` (desktop/request.rs is absent from
src/): "tagged outcome — Ok(T), Cancelled, or Other(failure) — the only shape
returned across the boundary". -/
inductive Response (α : Type)
  | ok (value : α)
  | cancelled
  | other
deriving DecidableEq, Repr

/-! ## Channel primitives

`futures_channel::mpsc` and `futures_channel::oneshot`, as used by every
interface adapter.  A bounded mpsc channel is its FIFO buffer, its capacity and
the liveness of its two endpoints; a oneshot completion slot is a tri-state. -/

/-- A bounded mpsc channel (`futures_channel::mpsc::channel(10)`). -/
structure Mpsc (α : Type) where
  buffer : List α
  capacity : Nat
  senderAlive : Bool
  receiverAlive : Bool
deriving DecidableEq, Repr

/-- Result of `Receiver::try_next`: `Ok(Some(a))` when an item is ready,
`Ok(None)` when the channel is closed and drained, `Err(TryRecvError)` when it
is empty but senders are still alive. -/
inductive TryNextResult (α : Type)
  | item (a : α)
  | closed
  | pending
deriving DecidableEq, Repr

/-- `Receiver::try_next` on the modelled channel state. -/
def Mpsc.tryNext {α : Type} (ch : Mpsc α) : TryNextResult α × Mpsc α :=
  match ch.buffer with
  | a :: rest => (.item a, { ch with buffer := rest })
  | [] => if ch.senderAlive then (.pending, ch) else (.closed, ch)

/-- Result of `Sender::try_send`: fails on a full buffer or a dropped
receiver, returning the rejected message to the caller inside the error. -/
inductive TrySendResult
  | ok
  | errFull
  | errDisconnected
deriving DecidableEq, Repr

/-- `Sender::try_send` on the modelled channel state. -/
def Mpsc.trySend {α : Type} (ch : Mpsc α) (a : α) : TrySendResult × Mpsc α :=
  if ch.receiverAlive = false then (.errDisconnected, ch)
  else if ch.capacity ≤ ch.buffer.length then (.errFull, ch)
  else (.ok, { ch with buffer := ch.buffer ++ [a] })

/-- Result of `SinkExt::send(..).await` on a bounded mpsc sender: suspends
until capacity is available (it never drops a message for lack of space) and
fails only when the receiver is gone. -/
inductive SinkSendResult
  | sent
  | sentAfterWait
  | errDisconnected
deriving DecidableEq, Repr

/-- `SinkExt::send(..).await` on the modelled channel state
(used only by the FileChooser adapter, src/backend/file_chooser.rs:267-279). -/
def Mpsc.sinkSend {α : Type} (ch : Mpsc α) (a : α) : SinkSendResult × Mpsc α :=
  if ch.receiverAlive = false then (.errDisconnected, ch)
  else if ch.capacity ≤ ch.buffer.length then
    (.sentAfterWait, { ch with buffer := ch.buffer ++ [a] })
  else (.sent, { ch with buffer := ch.buffer ++ [a] })

/-- State of one call's single-use completion slot
(`futures_channel::oneshot`): never yet written, written once with a value, or
cancelled because the write end was dropped without sending. -/
inductive Slot (β : Type)
  | empty
  | filled (value : β)
  | dropped
deriving DecidableEq, Repr

/-- What an adapter call finally does after awaiting its completion slot and
unwrapping the result (e.g. src/backend/wallpaper.rs:139-142
`stream.next().await` followed by `next.unwrap().unwrap()`): a filled slot
yields its value verbatim; a cancelled slot makes the unwrap panic; a slot
never written leaves the await suspended forever. -/
inductive AdapterOutcome (β : Type)
  | reply (value : β)
  | panicked
  | hung
deriving DecidableEq, Repr

/-- Awaiting and unwrapping the oneshot receiver, as a function of the final
state of the slot. -/
def awaitSlot {β : Type} (s : Slot β) : AdapterOutcome β :=
  match s with
  | .filled v => .reply v
  | .dropped => .panicked
  | .empty => .hung

/-! ## The per-call Action and the action fetch -/

/-- One queued remote call, as carried by each interface's `Action` enum
(wallpaper.rs:98-107, account.rs:97-105, file_chooser.rs:218-243): the
caller-chosen handle path, the operation-specific argument payload, and the
write end of the call's oneshot completion slot, represented by the id of the
slot it writes. -/
structure GenAction (ω : Type) where
  handle : OwnedObjectPath
  args : ω
  slot : Nat
deriving DecidableEq, Repr

/-- The shared action-fetch expression of Settings::next
(src/backend/settings.rs:58-64), Wallpaper::next (wallpaper.rs:68-73) and
Account::next (account.rs:68-73):
`receiver.borrow_mut().as_mut().and_then(|r| r.try_next().unwrap_or(None))`.
Both the closed and the empty-but-open channel map to `none`; the expression
is a plain function of the state and completes immediately. -/
def tryNextUnwrapOr {α : Type} (recv : Option (Mpsc α)) :
    Option α × Option (Mpsc α) :=
  match recv with
  | none => (none, none)
  | some ch =>
    match ch.tryNext with
    | (.item a, ch') => (some a, some ch')
    | (.closed, ch') => (none, some ch')
    | (.pending, ch') => (none, some ch')

/-- How one invocation of an interface's `next()` treats the polling caller:
it either dequeues and processes an action, completes at once having processed
nothing, or suspends until the channel changes. -/
inductive PollOutcome (α : Type)
  | acted (a : α)
  | idle
  | suspended
deriving DecidableEq, Repr

/-- The poll behaviour of the try_next-based `next()` of Settings, Wallpaper
and Account: a total function of the state — the caller is never suspended. -/
def tryPollOutcome {α : Type} (recv : Option (Mpsc α)) : PollOutcome α :=
  match tryNextUnwrapOr recv with
  | (some a, _) => .acted a
  | (none, _) => .idle

/-- FileChooser::next (src/backend/file_chooser.rs:213-215):
`self.receiver.lock().await.next().await`.  `StreamExt::next` on an mpsc
receiver completes with an item when one is buffered and with `None` when the
channel is closed and drained, but stays pending — suspending the caller —
while the channel is empty and a sender is still alive. -/
def fileChooserNext {α : Type} (ch : Mpsc α) : PollOutcome α × Mpsc α :=
  match ch.buffer with
  | a :: rest => (.acted a, { ch with buffer := rest })
  | [] => if ch.senderAlive then (.suspended, ch) else (.idle, ch)

/-! ## The cancellable dispatch body

Wallpaper::next (wallpaper.rs:68-95), Account::next (account.rs:68-94) and
each arm of FileChooser::activate (file_chooser.rs:179-211) repeat the same
body once an action is dequeued: register a Request at the action's handle
path, invoke the business-logic operation, fill the completion slot, then let
the Request answer a queued Close.  The body is embedded once, generically
over the argument payload `ω` and the response type `β`. -/

/-- The externally visible steps of dispatching one cancellable action. -/
inductive DispatchEvent
  | registerRequest (path : OwnedObjectPath)
  | invokeOperation
  | fillSlot (slot : Nat)
  | answerClose
deriving DecidableEq, Repr

/-- The state the dispatch body acts on: the object server's registrations
(paths, in registration order) and all completion slots. -/
structure DispatchCtx (β : Type) where
  server : List OwnedObjectPath
  slots : Nat → Slot β

/-- The dequeued-action branch of Wallpaper::next (wallpaper.rs:84-91) and its
per-interface copies, under a successfully registering Request:
`Request::new(imp, handle_path, cnx)` registers at the handle path, the
business operation runs on the action's arguments, `sender.send(result)` fills
the call's slot, and `request.next()` gives the Request a chance to answer a
Close that arrived meanwhile. -/
def dispatchCancellable {ω β : Type} (impl : ω → β) (a : GenAction ω)
    (ctx : DispatchCtx β) : DispatchCtx β × List DispatchEvent :=
  let ctx₁ : DispatchCtx β := { ctx with server := ctx.server ++ [a.handle] }
  let result := impl a.args
  let ctx₂ : DispatchCtx β :=
    { ctx₁ with slots := fun i => if i = a.slot then .filled result else ctx₁.slots i }
  (ctx₂, [.registerRequest a.handle, .invokeOperation, .fillSlot a.slot, .answerClose])

/-- The full state of one cancellable interface's dispatch side: the receive
end of its action channel and the dispatch context. -/
structure InterfaceState (ω β : Type) where
  recv : Option (Mpsc (GenAction ω))
  server : List OwnedObjectPath
  slots : Nat → Slot β

/-- One invocation of Wallpaper::next / Account::next (wallpaper.rs:68-95,
account.rs:68-94): fetch at most one action without suspending, and dispatch
it when present. -/
def cancellableNext {ω β : Type} (impl : ω → β) (st : InterfaceState ω β) :
    InterfaceState ω β × List DispatchEvent :=
  match tryNextUnwrapOr st.recv with
  | (some a, recv') =>
    let r := dispatchCancellable impl a ⟨st.server, st.slots⟩
    (⟨recv', r.1.server, r.1.slots⟩, r.2)
  | (none, recv') => (⟨recv', st.server, st.slots⟩, [])

/-- `n` consecutive invocations of the interface's `next()`, with the traces
of all dispatches concatenated in order. -/
def cancellableRun {ω β : Type} (impl : ω → β) :
    Nat → InterfaceState ω β → InterfaceState ω β × List DispatchEvent
  | 0, st => (st, [])
  | n + 1, st =>
    let r := cancellableNext impl st
    let r' := cancellableRun impl n r.1
    (r'.1, r.2 ++ r'.2)

/-- The cumulative effect on the completion slots of dispatching a list of
actions in order (specification device for `cancellableRun`). -/
def fillList {ω β : Type} (impl : ω → β) :
    List (GenAction ω) → (Nat → Slot β) → Nat → Slot β
  | [], s => s
  | a :: rest, s =>
    fillList impl rest (fun i => if i = a.slot then .filled (impl a.args) else s i)

/-- The slots written by a dispatch trace, in order. -/
def fillsOf : List DispatchEvent → List Nat
  | [] => []
  | .fillSlot i :: rest => i :: fillsOf rest
  | _ :: rest => fillsOf rest

/-! ## Adapter calls: enqueue plus await

Each remote call handled by a Transport Interface Adapter allocates a fresh
oneshot pair, enqueues the Action carrying the write end, and awaits and
unwraps the read end.  Wallpaper (wallpaper.rs:121-143), Settings
(settings.rs:98-112) and Account (account.rs:119-138) enqueue with
`try_send` and discard its result (`let _ = ...`); FileChooser
(file_chooser.rs:258-334) enqueues with `SinkExt::send(..).await` behind a
mutex and also discards the result.  In every failing case the rejected
Action — and with it the oneshot sender — is dropped, so the slot is
cancelled and the adapter's final unwrap panics.  `eventual` stands for the
state the dispatch loop eventually leaves the call's slot in once the action
was enqueued. -/

/-- A try_send-based adapter call (Wallpaper, Settings, Account). -/
def trySendAdapterCall {α β : Type} (ch : Mpsc α) (a : α) (eventual : Slot β) :
    AdapterOutcome β × Mpsc α :=
  match ch.trySend a with
  | (.ok, ch') => (awaitSlot eventual, ch')
  | (.errFull, ch') => (awaitSlot .dropped, ch')
  | (.errDisconnected, ch') => (awaitSlot .dropped, ch')

/-- A SinkExt::send-based adapter call (FileChooser). -/
def sinkSendAdapterCall {α β : Type} (ch : Mpsc α) (a : α) (eventual : Slot β) :
    AdapterOutcome β × Mpsc α :=
  match ch.sinkSend a with
  | (.sent, ch') => (awaitSlot eventual, ch')
  | (.sentAfterWait, ch') => (awaitSlot eventual, ch')
  | (.errDisconnected, ch') => (awaitSlot .dropped, ch')

/-- The argument payload of Action::SetWallpaperURI (wallpaper.rs:99-105). -/
structure WallpaperArgs where
  appId : AppID
  windowIdentifier : WindowIdentifierType
  uri : Url
  options : WallpaperOptions
deriving DecidableEq, Repr

/-- WallpaperInterface::set_wallpaper_uri (wallpaper.rs:121-143). -/
def setWallpaperUriCall (ch : Mpsc (GenAction WallpaperArgs))
    (a : GenAction WallpaperArgs) (eventual : Slot (Response Unit)) :
    AdapterOutcome (Response Unit) × Mpsc (GenAction WallpaperArgs) :=
  trySendAdapterCall ch a eventual

/-- AccountInterface::get_user_information (account.rs:119-138), generic over
the opaque UserInformationResponse payload `υ` and options payload `ω`. -/
def getUserInformationCall {ω υ : Type} (ch : Mpsc (GenAction ω))
    (a : GenAction ω) (eventual : Slot (Response υ)) :
    AdapterOutcome (Response υ) × Mpsc (GenAction ω) :=
  trySendAdapterCall ch a eventual

/-- FileChooserInterface::open_file (file_chooser.rs:258-282), generic over
the options payload `ω` and result payload `υ`. -/
def openFileCall {ω υ : Type} (ch : Mpsc (GenAction ω)) (a : GenAction ω)
    (eventual : Slot (Response υ)) :
    AdapterOutcome (Response υ) × Mpsc (GenAction ω) :=
  sinkSendAdapterCall ch a eventual

/-! ## Settings: the non-cancellable interface -/

/-- Action (src/backend/settings.rs:81-84): ReadAll and Read each carry their
own oneshot sender, represented by a slot id into the respective slot family.
The reply payloads (`HashMap<String, Namespace>` and `OwnedValue`) are opaque
type parameters `NS` and `V`. -/
inductive SettingsAction (NS V : Type)
  | readAll (namespaces : List String) (slot : Nat)
  | read (ns : String) (key : String) (slot : Nat)
deriving DecidableEq, Repr

/-- The Settings dispatch side: the channel's receive end and the completion
slots of both operations. -/
structure SettingsState (NS V : Type) where
  recv : Option (Mpsc (SettingsAction NS V))
  slotsReadAll : Nat → Slot NS
  slotsRead : Nat → Slot V

/-- Settings::next (src/backend/settings.rs:58-78): fetch at most one action
via try_next and, when present, invoke the business operation and fill the
call's slot.  No Request is created — Settings operations are not
cancellable. -/
def settingsNext {NS V : Type} (readAllImpl : List String → NS)
    (readImpl : String → String → V) (st : SettingsState NS V) :
    SettingsState NS V :=
  match tryNextUnwrapOr st.recv with
  | (some (.readAll nss slot), recv') =>
    { st with
      recv := recv',
      slotsReadAll := fun i =>
        if i = slot then .filled (readAllImpl nss) else st.slotsReadAll i }
  | (some (.read ns key slot), recv') =>
    { st with
      recv := recv',
      slotsRead := fun i =>
        if i = slot then .filled (readImpl ns key) else st.slotsRead i }
  | (none, recv') => { st with recv := recv' }

/-- SettingsInterface::read_all (src/backend/settings.rs:98-104): try_send the
action, result discarded, then await and unwrap the oneshot. -/
def readAllCall {NS V : Type} (ch : Mpsc (SettingsAction NS V))
    (namespaces : List String) (slot : Nat) (eventual : Slot NS) :
    AdapterOutcome NS × Mpsc (SettingsAction NS V) :=
  trySendAdapterCall ch (.readAll namespaces slot) eventual

/-! ## Dispatch with a failing Request registration (C7) -/

/-- Structured zbus-level error. -/
inductive ZbusError
  | connectionFailure
  | nameTaken
  | invalidName
  | otherFailure
deriving DecidableEq, Repr

/-- The action branch of Wallpaper::next with the outcome of
`Request::new(...).await?` (wallpaper.rs:84-85) made explicit: on a
registration failure the `?` propagates the error out of `next()`; the local
`sender` — the only write end of the call's completion slot — is dropped
without sending, so the slot is cancelled and no Response is ever produced
for that call. -/
def dispatchWithRegistration {ω β : Type} (impl : ω → β)
    (reg : Except ZbusError Unit) (a : GenAction ω) (ctx : DispatchCtx β) :
    Except ZbusError Unit × DispatchCtx β × List DispatchEvent :=
  match reg with
  | .error e =>
    (.error e,
     { ctx with slots := fun i => if i = a.slot then .dropped else ctx.slots i },
     [])
  | .ok _ =>
    let r := dispatchCancellable impl a ctx
    (.ok (), r.1, r.2)

/-! ## Backend construction and teardown -/

/-- Opaque transport session (`zbus::Connection`). -/
structure Connection where
  id : Nat
deriving DecidableEq, Repr

/-- Well-known bus name (`zbus::names::WellKnownName`). -/
structure WellKnownName where
  raw : String
deriving DecidableEq, Repr

/-- Backend (src/backend/mod.rs:25-28): `Option` so Drop can `take()` without
cloning. -/
structure Backend where
  cnx : Option Connection
  name : Option WellKnownName
deriving DecidableEq, Repr

/-- How a constructor run ends: a value, a structured error, or a panic. -/
inductive BuildOutcome (α : Type)
  | ok (value : α)
  | err (e : ZbusError)
  | panicked
deriving DecidableEq, Repr

/-- Backend::new_inner (src/backend/mod.rs:38-57), as a function of the
outcomes of its fallible externals, in source order: `session` is
`zbus::Connection::session()` (line 42, result **unwrapped**), `proxyBuild`
is `DBusProxy::builder(..).build()` (line 43, `?`), `nameConv` is
`name.try_into()` (line 44, `?`), and `requestName` is
`proxy.request_name(..)` (lines 46-51, `?`).  The second component lists the
interfaces registered by construction: none — interface registration happens
later, in each interface's own constructor. -/
def newInner (session : Except ZbusError Connection)
    (proxyBuild : Except ZbusError Unit)
    (nameConv : Except ZbusError WellKnownName)
    (requestName : Except ZbusError Unit) : BuildOutcome Backend × List String :=
  match session with
  | .error _ => (.panicked, [])
  | .ok cnx =>
    match proxyBuild with
    | .error e => (.err e, [])
    | .ok _ =>
      match nameConv with
      | .error e => (.err e, [])
      | .ok name =>
        match requestName with
        | .error e => (.err e, [])
        | .ok _ => (.ok ⟨some cnx, some name⟩, [])

/-- A teardown fault that the destructor can only log. -/
inductive TeardownFault
  | spawnFailed
  | releaseFailed
deriving DecidableEq, Repr

/-- Result of one run of the destructor: either it returned — with the state
left behind, the number of identity releases initiated and the faults
logged — or it panicked. -/
inductive DropResult
  | returned (after : Backend) (releases : Nat) (logged : List TeardownFault)
  | panicked
deriving DecidableEq, Repr

/-- Releases initiated by a destructor run. -/
def DropResult.releases : DropResult → Nat
  | .returned _ n _ => n
  | .panicked => 0

/-- The state a returning destructor run leaves behind. -/
def DropResult.after : DropResult → Option Backend
  | .returned b _ _ => some b
  | .panicked => none

/-- impl Drop for Backend (src/backend/mod.rs:71-88).  `take()` empties both
fields unconditionally; only when both were present is an executor created
(`ThreadPool::new().unwrap()`, line 76 — `poolOk`) and a release of the name
spawned (line 77 — `spawnOk`); a spawn failure, like a failure of
`Backend::release` itself (line 78 — `releaseOk`), is logged and discarded.
The destructor has no error channel: apart from the pool unwrap it always
returns. -/
def backendDrop (b : Backend) (poolOk : Bool) (spawnOk : Bool)
    (releaseOk : Bool) : DropResult :=
  match b.cnx, b.name with
  | some _, some _ =>
    if poolOk = false then .panicked
    else if spawnOk = false then .returned ⟨none, none⟩ 0 [.spawnFailed]
    else if releaseOk = false then .returned ⟨none, none⟩ 1 [.releaseFailed]
    else .returned ⟨none, none⟩ 1 []
  | _, _ => .returned ⟨none, none⟩ 0 []

/-! ## The Request close protocol (src/backend/request.rs)

A Request owns a registration at its handle path and a 10-slot channel of
Close actions.  The remote Close handler (request.rs:81-98) enqueues an
`Action::Close` carrying a fresh oneshot, awaits it, then removes the path
from the object server and returns its single reply.  `Request::next`
(request.rs:45-58) — driven exactly once per dispatched action, after the
business operation — pops at most one queued Close, awaits the business
logic's `close()`, and only then fills the Close call's oneshot.  The
resolution of an object path by the object server is zbus behaviour, absent
from src/, modelled from the spec: a path with no registered object fails as
"object not found". -/

/-- Phase of one remote Close call on the Request's path. -/
inductive ClosePhase
  | idle
  | queued
  | replied
  | done
  | notFound
deriving DecidableEq, Repr

/-- Pointwise update of the call-phase map. -/
def updCalls (f : Nat → ClosePhase) (i : Nat) (p : ClosePhase) :
    Nat → ClosePhase :=
  fun j => if j = i then p else f j

/-- Joint state of one Request and all Close calls ever addressed to its
path.  `registered`: the path resolves on the object server;
`bizCloseRuns`: completed `imp.close()` invocations; `nextAvailable`:
`Request::next` has not yet been driven; `queue`: the Request's Close channel
buffer, FIFO, by caller id. -/
structure RequestSystem where
  registered : Bool
  bizCloseRuns : Nat
  nextAvailable : Bool
  queue : List Nat
  calls : Nat → ClosePhase

/-- The interleaved steps of the close protocol.  `arriveFound` /
`arriveNotFound`: a remote Close reaches the object server, which resolves
the path or fails the call as object-not-found (zbus resolution modelled from
the spec); a resolved call runs request.rs:85-86, enqueueing its oneshot.
`dispatchClose`: Request::next (request.rs:45-58) pops one queued Close, runs
`imp.close().await`, then fills the oneshot.  `dispatchEmpty`: Request::next
finds nothing queued.  `finishClose`: the handler's await resumes
(request.rs:88-89), it removes the path (request.rs:94-96) and returns its
one reply. -/
inductive CloseStep : RequestSystem → RequestSystem → Prop
  | arriveFound (st : RequestSystem) (i : Nat) (hidle : st.calls i = .idle)
      (hreg : st.registered = true) :
      CloseStep st
        { st with queue := st.queue ++ [i], calls := updCalls st.calls i .queued }
  | arriveNotFound (st : RequestSystem) (i : Nat) (hidle : st.calls i = .idle)
      (hreg : st.registered = false) :
      CloseStep st { st with calls := updCalls st.calls i .notFound }
  | dispatchClose (st : RequestSystem) (i : Nat) (rest : List Nat)
      (hnext : st.nextAvailable = true) (hq : st.queue = i :: rest) :
      CloseStep st
        { st with
          nextAvailable := false,
          queue := rest,
          bizCloseRuns := st.bizCloseRuns + 1,
          calls := updCalls st.calls i .replied }
  | dispatchEmpty (st : RequestSystem) (hnext : st.nextAvailable = true)
      (hq : st.queue = []) :
      CloseStep st { st with nextAvailable := false }
  | finishClose (st : RequestSystem) (i : Nat) (hrep : st.calls i = .replied) :
      CloseStep st
        { st with registered := false, calls := updCalls st.calls i .done }

/-- The state right after `Request::new` (request.rs:25-43) succeeds and
before the dispatch loop finishes the business operation. -/
def initRequestSystem : RequestSystem :=
  { registered := true, bizCloseRuns := 0, nextAvailable := true,
    queue := [], calls := fun _ => .idle }

/-- States the close protocol can reach. -/
inductive CloseReachable : RequestSystem → Prop
  | init : CloseReachable initRequestSystem
  | step {st st' : RequestSystem} : CloseReachable st → CloseStep st st' →
      CloseReachable st'

/-- The inductive invariant of the close protocol. -/
def closeInv (st : RequestSystem) : Prop :=
  (∀ i, st.calls i = .done → st.registered = false) ∧
  (∀ i, st.calls i = .replied ∨ st.calls i = .done → 1 ≤ st.bizCloseRuns) ∧
  (st.nextAvailable = true →
    ∀ i, st.calls i ≠ .replied ∧ st.calls i ≠ .done) ∧
  (∀ i j, (st.calls i = .replied ∨ st.calls i = .done) →
    (st.calls j = .replied ∨ st.calls j = .done) → i = j) ∧
  (∀ i, i ∈ st.queue → st.calls i = .queued) ∧
  st.queue.Nodup

/-! ## FileName (src/backend/file_chooser.rs:29-63) -/

/-- Index of the first NUL byte (std `memchr`, as used by
`CString::from_vec_with_nul`). -/
def memchr0 : List Nat → Option Nat
  | [] => none
  | b :: rest => if b = 0 then some 0 else (memchr0 rest).map (· + 1)

/-- `CString::from_vec_with_nul` (std), as invoked by FileName's Deserialize
(file_chooser.rs:58): succeeds exactly when the first NUL byte of the vector
exists and is its final byte, retaining the bytes without that NUL. -/
def fromVecWithNul (bytes : List Nat) : Option (List Nat) :=
  match memchr0 bytes with
  | none => none
  | some i => if i + 1 = bytes.length then some bytes.dropLast else none

/-- FileName (file_chooser.rs:36): holds the CString's bytes without the
trailing NUL (`as_bytes`). -/
structure FileName where
  bytes : List Nat
deriving DecidableEq, Repr

/-- impl Deserialize for FileName (file_chooser.rs:52-63): deserialize the
byte vector, then `CString::from_vec_with_nul`, mapping its failure to a
custom error. -/
def FileName.deserialize (bytes : List Nat) : Except String FileName :=
  match fromVecWithNul bytes with
  | some cs => .ok ⟨cs⟩
  | none => .error "Bytes are not null-terminated"

/-- impl AsRef of Path for FileName (file_chooser.rs:38-44):
`OsStr::from_bytes(self.0.as_bytes())` — the path is exactly the retained
bytes. -/
def FileName.asPath (f : FileName) : List Nat := f.bytes

/-! ## Concrete sample inputs, used by witnesses and counterexamples -/

/-- Sample SetWallpaperURI arguments. -/
def sampleArgs : WallpaperArgs :=
  { appId := ⟨"org.example.App"⟩, windowIdentifier := ⟨"wayland:h"⟩,
    uri := ⟨"file:///bg.png"⟩, options := ⟨some true, some .background⟩ }

/-- A second, distinguishable set of arguments. -/
def sampleArgs2 : WallpaperArgs :=
  { appId := ⟨"org.example.Other"⟩, windowIdentifier := ⟨"x11:7"⟩,
    uri := ⟨"file:///other.png"⟩, options := ⟨none, some .lockscreen⟩ }

/-- A first concrete call: its own handle path and completion slot 0. -/
def sampleAction0 : GenAction WallpaperArgs := ⟨⟨"/request/u0/t0"⟩, sampleArgs, 0⟩

/-- A second concurrent call: a distinct handle path and completion slot 1. -/
def sampleAction1 : GenAction WallpaperArgs := ⟨⟨"/request/u1/t1"⟩, sampleArgs2, 1⟩

/-- A sample business implementation that distinguishes its inputs. -/
def sampleImpl : WallpaperArgs → Response Unit :=
  fun a => if a.uri.raw = "file:///bg.png" then .ok () else .cancelled

/-- An empty, open action channel (the FileChooser payloads are irrelevant to
the poll claims; an opaque token stands for them). -/
def sampleFcChanEmpty : Mpsc (GenAction Unit) := ⟨[], 10, true, true⟩

/-- A channel whose buffer is at capacity, so try_send fails with Full. -/
def sampleFullChan : Mpsc (GenAction WallpaperArgs) := ⟨[sampleAction0], 1, true, true⟩

/-- The close protocol after a first Close arrived and was enqueued. -/
def closeState1 : RequestSystem :=
  { registered := true, bizCloseRuns := 0, nextAvailable := true, queue := [0],
    calls := updCalls (fun _ => .idle) 0 .queued }

/-- ... after Request::next ran the business close() and filled the oneshot. -/
def closeState2 : RequestSystem :=
  { registered := true, bizCloseRuns := 1, nextAvailable := false, queue := [],
    calls := updCalls (updCalls (fun _ => .idle) 0 .queued) 0 .replied }

/-- ... after the Close handler resumed, removed the path and replied. -/
def closeState3 : RequestSystem :=
  { registered := false, bizCloseRuns := 1, nextAvailable := false, queue := [],
    calls := updCalls (updCalls (updCalls (fun _ => .idle) 0 .queued) 0 .replied) 0 .done }

/-- The cumulative trace of dispatching a list of actions in order
(specification device for `cancellableRun`). -/
def traceOf {ω : Type} : List (GenAction ω) → List DispatchEvent
  | [] => []
  | a :: rest =>
    [.registerRequest a.handle, .invokeOperation, .fillSlot a.slot, .answerClose]
      ++ traceOf rest

/-- Draining a queue of `actions` by as many `next()` polls, from all-empty
slots and an empty object server. -/
def drainRun {ω β : Type} (impl : ω → β) (actions : List (GenAction ω))
    (cap : Nat) (sa ra : Bool) : InterfaceState ω β × List DispatchEvent :=
  cancellableRun impl actions.length ⟨some ⟨actions, cap, sa, ra⟩, [], fun _ => .empty⟩

/-! # Theorems -/

/-! ### Small helpers -/

theorem updCalls_same (f : Nat → ClosePhase) (i : Nat) (p : ClosePhase) :
    updCalls f i p i = p := by
  simp [updCalls]

theorem updCalls_other (f : Nat → ClosePhase) (i : Nat) (p : ClosePhase)
    (j : Nat) (h : j ≠ i) : updCalls f i p j = f j := by
  simp [updCalls, h]

/-! ### C6 -/

/-- C6: dispatching a cancellable Action performs exactly, and in this order:
(1) register a Request at the action's handle path, (2) invoke the matching
asynchronous business operation on the action's arguments, (3) fill the
action's completion slot with the returned Response, (4) give the Request a
chance to answer a Close that arrived while the operation ran — with exactly
the corresponding state effects. -/
theorem C6_dispatch_step_order {ω β : Type} (impl : ω → β) (a : GenAction ω)
    (ctx : DispatchCtx β) :
    dispatchCancellable impl a ctx =
      ({ server := ctx.server ++ [a.handle],
         slots := fun i => if i = a.slot then .filled (impl a.args) else ctx.slots i },
       [.registerRequest a.handle, .invokeOperation, .fillSlot a.slot,
        .answerClose]) := rfl

/-! ### C8 -/

/-- C8: evaluating Backend::new_inner at the failing input: a
session-establishment failure makes it panic (the unwrap at mod.rs:42)
instead of surfacing the structured construction error the claim describes.
Identity-acquisition failure does surface as a structured error, and
construction registers zero interfaces on every path. -/
theorem C8_session_failure_panics :
    (∀ (e : ZbusError) (p : Except ZbusError Unit)
      (n : Except ZbusError WellKnownName) (r : Except ZbusError Unit),
      newInner (.error e) p n r = (.panicked, [])) ∧
    (∀ (c : Connection) (nm : WellKnownName) (e : ZbusError),
      newInner (.ok c) (.ok ()) (.ok nm) (.error e) = (.err e, [])) ∧
    (∀ s p n r, (newInner s p n r).2 = []) := by
  refine ⟨fun _ _ _ _ => rfl, fun _ _ _ => rfl, fun s p n r => ?_⟩
  rcases s with e | c
  · rfl
  · rcases p with e | u
    · rfl
    · rcases n with e | nm
      · rfl
      · rcases r with e | u <;> rfl

/-! ### C9 -/

/-- C9: with the executor pool available, a destructor run always returns —
there is no error channel to escalate into — initiates at most one release of
the well-known identity, and empties both fields, so Released is terminal: a
second run initiates no further release.  A spawn failure, like a release
failure, is only logged. -/
theorem C9_identity_released_at_most_once (b : Backend) (c : Connection)
    (nm : WellKnownName) (spawnOk releaseOk s' r' : Bool) :
    (backendDrop b true spawnOk releaseOk).releases ≤ 1 ∧
    (backendDrop b true spawnOk releaseOk).after = some ⟨none, none⟩ ∧
    (backendDrop ⟨none, none⟩ true s' r').releases = 0 ∧
    backendDrop ⟨some c, some nm⟩ true true false =
      .returned ⟨none, none⟩ 1 [.releaseFailed] ∧
    backendDrop ⟨some c, some nm⟩ true false releaseOk =
      .returned ⟨none, none⟩ 0 [.spawnFailed] := by
  obtain ⟨cnx, bn⟩ := b
  cases cnx <;> cases bn <;> cases spawnOk <;> cases releaseOk <;>
    simp [backendDrop, DropResult.releases, DropResult.after]

/-! ### C2 -/

/-- C2 counterexample: FileChooser::next (file_chooser.rs:213-215), invoked
on an empty, open Action Channel, suspends the polling caller rather than
completing with "none": the claim's "for every interface kind" fails for
FileChooser. -/
theorem C2_filechooser_next_suspends :
    (fileChooserNext sampleFcChanEmpty).1 = PollOutcome.suspended ∧
    sampleFcChanEmpty.buffer = [] ∧ sampleFcChanEmpty.senderAlive = true :=
  ⟨rfl, rfl, rfl⟩

/-- C2 amended: the try_next-based next() of Settings, Wallpaper and Account
is non-blocking — each invocation either processes a ready action or
completes at once having processed nothing, and on an empty channel it
completes immediately leaving the state untouched.  FileChooser::next, by
contrast, suspends on an empty channel while the sender end is alive,
completing with "none" immediately only once the channel is closed. -/
theorem C2_poll_nonblocking_amended {ω β NS V : Type} (impl : ω → β)
    (readAllImpl : List String → NS) (readImpl : String → String → V) :
    (∀ (recv : Option (Mpsc (GenAction ω))),
      tryPollOutcome recv = .idle ∨ ∃ a, tryPollOutcome recv = .acted a) ∧
    (∀ (cap : Nat) (sa ra : Bool),
      tryPollOutcome (some (⟨[], cap, sa, ra⟩ : Mpsc (GenAction ω))) = .idle) ∧
    (∀ (cap : Nat) (sa ra : Bool) (s1 : Nat → Slot NS) (s2 : Nat → Slot V),
      settingsNext readAllImpl readImpl ⟨some ⟨[], cap, sa, ra⟩, s1, s2⟩ =
        ⟨some ⟨[], cap, sa, ra⟩, s1, s2⟩) ∧
    (∀ (cap : Nat) (sa ra : Bool) (server : List OwnedObjectPath)
      (s : Nat → Slot β),
      cancellableNext impl ⟨some ⟨[], cap, sa, ra⟩, server, s⟩ =
        (⟨some ⟨[], cap, sa, ra⟩, server, s⟩, [])) ∧
    (∀ (cap : Nat) (ra : Bool),
      (fileChooserNext (⟨[], cap, true, ra⟩ : Mpsc (GenAction ω))).1 =
        .suspended) ∧
    (∀ (cap : Nat) (ra : Bool),
      (fileChooserNext (⟨[], cap, false, ra⟩ : Mpsc (GenAction ω))).1 =
        .idle) := by
  refine ⟨?_, ?_, ?_, ?_, ?_, ?_⟩
  · intro recv
    rcases h : tryNextUnwrapOr recv with ⟨o, r⟩
    cases o with
    | some a => exact Or.inr ⟨a, by simp [tryPollOutcome, h]⟩
    | none => exact Or.inl (by simp [tryPollOutcome, h])
  · intro cap sa ra
    cases sa <;> rfl
  · intro cap sa ra s1 s2
    cases sa <;> rfl
  · intro cap sa ra server s
    cases sa <;> rfl
  · intro cap ra
    rfl
  · intro cap ra
    rfl

/-! ### C3 -/

/-- C3: each interface kind's adapter call, as a function of the channel's
answer to the enqueue.  An accepted action leads to awaiting the call's own
completion slot; a rejected action — try_send on a full or closed channel for
Wallpaper, Settings and Account, bounded send on a closed channel for
FileChooser (on a full channel the bounded send only waits, dropping
nothing) — drops the Action together with its oneshot sender, so the
adapter's final unwrap panics: the defect is loud, never a silently
fabricated reply.  A cancelled slot can never yield a reply, and a filled
slot yields exactly the value placed into it. -/
theorem C3_enqueue_never_silently_drops {ω υ NS V : Type}
    (chW : Mpsc (GenAction WallpaperArgs)) (aW : GenAction WallpaperArgs)
    (evW : Slot (Response Unit)) (chS : Mpsc (SettingsAction NS V))
    (namespaces : List String) (slot : Nat) (evN : Slot NS)
    (ch : Mpsc (GenAction ω)) (a : GenAction ω) (ev : Slot (Response υ))
    (bn : NS) (buf : List (GenAction WallpaperArgs)) (cap : Nat) (sa : Bool) :
    ((setWallpaperUriCall chW aW evW).1 =
      match (chW.trySend aW).1 with
      | .ok => awaitSlot evW
      | .errFull => .panicked
      | .errDisconnected => .panicked) ∧
    ((readAllCall chS namespaces slot evN).1 =
      match (chS.trySend (.readAll namespaces slot)).1 with
      | .ok => awaitSlot evN
      | .errFull => .panicked
      | .errDisconnected => .panicked) ∧
    ((getUserInformationCall ch a ev).1 =
      match (ch.trySend a).1 with
      | .ok => awaitSlot ev
      | .errFull => .panicked
      | .errDisconnected => .panicked) ∧
    ((openFileCall ch a ev).1 =
      match (ch.sinkSend a).1 with
      | .sent => awaitSlot ev
      | .sentAfterWait => awaitSlot ev
      | .errDisconnected => .panicked) ∧
    (awaitSlot (Slot.dropped : Slot NS) = .panicked) ∧
    (awaitSlot (Slot.filled bn) = .reply bn) ∧
    ((setWallpaperUriCall sampleFullChan sampleAction1 evW).1 = .panicked) ∧
    ((setWallpaperUriCall ⟨buf, cap, sa, false⟩ aW evW).1 = .panicked) := by
  refine ⟨?_, ?_, ?_, ?_, rfl, rfl, rfl, rfl⟩
  · rcases h : chW.trySend aW with ⟨res, ch'⟩
    cases res <;>
      simp [setWallpaperUriCall, trySendAdapterCall, h, awaitSlot]
  · rcases h : chS.trySend (.readAll namespaces slot) with ⟨res, ch'⟩
    cases res <;> simp [readAllCall, trySendAdapterCall, h, awaitSlot]
  · rcases h : ch.trySend a with ⟨res, ch'⟩
    cases res <;>
      simp [getUserInformationCall, trySendAdapterCall, h, awaitSlot]
  · rcases h : ch.sinkSend a with ⟨res, ch'⟩
    cases res <;> simp [openFileCall, sinkSendAdapterCall, h, awaitSlot]

/-! ### C7 -/

/-- C7 counterexample: with a failing Request registration
(`Request::new(...).await?`, wallpaper.rs:84-85) the Dispatch Loop drops the
dequeued Action without filling its completion slot; what then reaches the
remote caller is not any tagged Response — the adapter's final unwrap
panics. -/
theorem C7_dropped_action_panics :
    (dispatchWithRegistration sampleImpl (.error .otherFailure) sampleAction0
        ⟨[], fun _ => .empty⟩).1 = .error .otherFailure ∧
    awaitSlot ((dispatchWithRegistration sampleImpl (.error .otherFailure)
        sampleAction0 ⟨[], fun _ => .empty⟩).2.1.slots sampleAction0.slot) =
      .panicked :=
  ⟨rfl, rfl⟩

/-- C7 amended: whenever the Dispatch Loop completes and fills the slot, the
adapter returns exactly the filled Response — by construction one of the
three tagged outcomes Ok, Cancelled, Other; but when the loop fails
internally (Request registration fails) and drops the Action without filling
the slot, no Response crosses the boundary at all: the adapter panics on its
cancelled slot. -/
theorem C7_response_taxonomy_amended {ω υ : Type} (impl : ω → Response υ)
    (a : GenAction ω) (ctx : DispatchCtx (Response υ)) (e : ZbusError) :
    (awaitSlot ((dispatchWithRegistration impl (.ok ()) a ctx).2.1.slots a.slot)
        = .reply (impl a.args)) ∧
    (awaitSlot ((dispatchWithRegistration impl (.error e) a ctx).2.1.slots a.slot)
        = .panicked) ∧
    (∀ r : Response υ, (∃ t, r = .ok t) ∨ r = .cancelled ∨ r = .other) := by
  refine ⟨?_, ?_, ?_⟩
  · simp [dispatchWithRegistration, dispatchCancellable, awaitSlot]
  · simp [dispatchWithRegistration, awaitSlot]
  · intro r
    cases r with
    | ok t => exact Or.inl ⟨t, rfl⟩
    | cancelled => exact Or.inr (Or.inl rfl)
    | other => exact Or.inr (Or.inr rfl)

/-! ### C1 -/

theorem cancellableRun_drain {ω β : Type} (impl : ω → β)
    (actions : List (GenAction ω)) :
    ∀ (cap : Nat) (sa ra : Bool) (server : List OwnedObjectPath)
      (s : Nat → Slot β),
      cancellableRun impl actions.length ⟨some ⟨actions, cap, sa, ra⟩, server, s⟩ =
        (⟨some ⟨[], cap, sa, ra⟩, server ++ actions.map (fun a => a.handle),
          fillList impl actions s⟩, traceOf actions) := by
  induction actions with
  | nil =>
    intro cap sa ra server s
    simp [cancellableRun, fillList, traceOf]
  | cons a rest ih =>
    intro cap sa ra server s
    have step : cancellableNext impl ⟨some ⟨a :: rest, cap, sa, ra⟩, server, s⟩ =
        (⟨some ⟨rest, cap, sa, ra⟩, server ++ [a.handle],
          fun i => if i = a.slot then .filled (impl a.args) else s i⟩,
         [.registerRequest a.handle, .invokeOperation, .fillSlot a.slot,
          .answerClose]) := rfl
    simp only [List.length_cons, cancellableRun, step]
    rw [ih cap sa ra (server ++ [a.handle])
      (fun i => if i = a.slot then .filled (impl a.args) else s i)]
    simp [fillList, traceOf, List.append_assoc]

theorem fillsOf_traceOf {ω : Type} (actions : List (GenAction ω)) :
    fillsOf (traceOf actions) = actions.map (fun a => a.slot) := by
  induction actions with
  | nil => rfl
  | cons a rest ih => simp [traceOf, fillsOf, ih]

theorem fillList_not_mem {ω β : Type} (impl : ω → β) :
    ∀ (actions : List (GenAction ω)) (s : Nat → Slot β) (i : Nat),
      i ∉ actions.map (fun a => a.slot) → fillList impl actions s i = s i := by
  intro actions
  induction actions with
  | nil => intro s i _; rfl
  | cons a rest ih =>
    intro s i h
    simp only [List.map_cons, List.mem_cons] at h
    push_neg at h
    simp only [fillList]
    rw [ih _ _ h.2]
    simp [h.1]

theorem fillList_mem {ω β : Type} (impl : ω → β) :
    ∀ (actions : List (GenAction ω)) (s : Nat → Slot β) (a : GenAction ω),
      a ∈ actions → (actions.map (fun x => x.slot)).Nodup →
      fillList impl actions s a.slot = .filled (impl a.args) := by
  intro actions
  induction actions with
  | nil => intro s a ha _; exact absurd ha (List.not_mem_nil a)
  | cons b rest ih =>
    intro s a ha hnd
    simp only [List.map_cons, List.nodup_cons] at hnd
    rcases List.mem_cons.mp ha with rfl | hmem
    · simp only [fillList]
      rw [fillList_not_mem impl rest _ a.slot hnd.1]
      simp
    · simp only [fillList]
      exact ih _ a hmem hnd.2

/-- C1: draining the actions of N concurrent calls whose completion slots are
pairwise distinct (each adapter allocates a fresh oneshot pair per call):
every call's slot ends filled with exactly the business result of that call's
own arguments; the adapter's await-and-unwrap then returns exactly the value
the Dispatch Loop placed into that call's own slot; slots not belonging to
any of the calls stay untouched; and the fill log is exactly the calls' slot
list, so each slot is filled exactly once — exactly N responses, each
delivered exclusively to its originating call. -/
theorem C1_one_call_one_response {ω β : Type} (impl : ω → β)
    (actions : List (GenAction ω)) (cap : Nat) (sa ra : Bool)
    (hfresh : (actions.map (fun a => a.slot)).Nodup) :
    (∀ a ∈ actions,
      (drainRun impl actions cap sa ra).1.slots a.slot = .filled (impl a.args)) ∧
    (∀ a ∈ actions,
      awaitSlot ((drainRun impl actions cap sa ra).1.slots a.slot) =
        .reply (impl a.args)) ∧
    (∀ i, i ∉ actions.map (fun a => a.slot) →
      (drainRun impl actions cap sa ra).1.slots i = .empty) ∧
    fillsOf (drainRun impl actions cap sa ra).2 =
      actions.map (fun a => a.slot) ∧
    (∀ i, (fillsOf (drainRun impl actions cap sa ra).2).count i ≤ 1) := by
  have hdrain := cancellableRun_drain impl actions cap sa ra [] (fun _ => .empty)
  refine ⟨?_, ?_, ?_, ?_, ?_⟩
  · intro a ha
    simp only [drainRun, hdrain]
    exact fillList_mem impl actions _ a ha hfresh
  · intro a ha
    simp only [drainRun, hdrain]
    rw [fillList_mem impl actions _ a ha hfresh]
    rfl
  · intro i hi
    simp only [drainRun, hdrain]
    exact fillList_not_mem impl actions _ i hi
  · simp only [drainRun, hdrain]
    exact fillsOf_traceOf actions
  · intro i
    simp only [drainRun, hdrain, fillsOf_traceOf]
    exact List.nodup_iff_count_le_one.mp hfresh i

/-- C1 witness: the theorem applied to two concrete concurrent
SetWallpaperURI calls with distinct handles, arguments and slots. -/
theorem C1_one_call_one_response_witness :
    (([sampleAction0, sampleAction1].map (fun a => a.slot)).Nodup) ∧
    ((∀ a ∈ [sampleAction0, sampleAction1],
      (drainRun sampleImpl [sampleAction0, sampleAction1] 10 true true).1.slots
          a.slot = .filled (sampleImpl a.args)) ∧
    (∀ a ∈ [sampleAction0, sampleAction1],
      awaitSlot ((drainRun sampleImpl [sampleAction0, sampleAction1] 10 true
          true).1.slots a.slot) = .reply (sampleImpl a.args)) ∧
    (∀ i, i ∉ [sampleAction0, sampleAction1].map (fun a => a.slot) →
      (drainRun sampleImpl [sampleAction0, sampleAction1] 10 true true).1.slots
        i = .empty) ∧
    fillsOf (drainRun sampleImpl [sampleAction0, sampleAction1] 10 true true).2 =
      [sampleAction0, sampleAction1].map (fun a => a.slot) ∧
    (∀ i, (fillsOf (drainRun sampleImpl [sampleAction0, sampleAction1] 10 true
      true).2).count i ≤ 1)) :=
  ⟨by decide,
   C1_one_call_one_response sampleImpl [sampleAction0, sampleAction1] 10 true
     true (by decide)⟩

/-! ### C4 and C5: the close protocol invariant -/

theorem closeInv_init : closeInv initRequestSystem := by
  refine ⟨?_, ?_, ?_, ?_, ?_, ?_⟩ <;> simp [initRequestSystem, closeInv]

theorem closeInv_step {st st' : RequestSystem} (h : closeInv st)
    (hs : CloseStep st st') : closeInv st' := by
  obtain ⟨I1, I2, I3, I4, I5, I6⟩ := h
  cases hs with
  | arriveFound i hidle hreg =>
    have hnotq : i ∉ st.queue := by
      intro hmem
      have hq := I5 i hmem
      rw [hidle] at hq
      exact ClosePhase.noConfusion hq
    refine ⟨?_, ?_, ?_, ?_, ?_, ?_⟩
    · intro j hj
      by_cases hji : j = i
      · subst hji
        simp only [updCalls_same] at hj
        exact ClosePhase.noConfusion hj
      · simp only [updCalls_other _ _ _ _ hji] at hj
        exact I1 j hj
    · intro j hj
      by_cases hji : j = i
      · subst hji
        simp only [updCalls_same] at hj
        rcases hj with hj | hj <;> exact ClosePhase.noConfusion hj
      · simp only [updCalls_other _ _ _ _ hji] at hj
        exact I2 j hj
    · intro hna j
      by_cases hji : j = i
      · subst hji
        simp only [updCalls_same]
        exact ⟨fun hc => ClosePhase.noConfusion hc, fun hc => ClosePhase.noConfusion hc⟩
      · simp only [updCalls_other _ _ _ _ hji]
        exact I3 hna j
    · intro j k hj hk
      by_cases hji : j = i
      · subst hji
        simp only [updCalls_same] at hj
        rcases hj with hj | hj <;> exact ClosePhase.noConfusion hj
      · by_cases hki : k = i
        · subst hki
          simp only [updCalls_same] at hk
          rcases hk with hk | hk <;> exact ClosePhase.noConfusion hk
        · simp only [updCalls_other _ _ _ _ hji] at hj
          simp only [updCalls_other _ _ _ _ hki] at hk
          exact I4 j k hj hk
    · intro j hjmem
      rcases List.mem_append.mp hjmem with hmem | hmem
      · have hq := I5 j hmem
        have hji : j ≠ i := by
          intro hji
          subst hji
          rw [hidle] at hq
          exact ClosePhase.noConfusion hq
        simp only [updCalls_other _ _ _ _ hji]
        exact hq
      · have hji : j = i := by simpa using hmem
        subst hji
        exact updCalls_same _ _ _
    · simp [List.nodup_append, I6, hnotq]
  | arriveNotFound i hidle hreg =>
    refine ⟨?_, ?_, ?_, ?_, ?_, ?_⟩
    · intro j hj
      by_cases hji : j = i
      · subst hji
        simp only [updCalls_same] at hj
        exact ClosePhase.noConfusion hj
      · simp only [updCalls_other _ _ _ _ hji] at hj
        exact I1 j hj
    · intro j hj
      by_cases hji : j = i
      · subst hji
        simp only [updCalls_same] at hj
        rcases hj with hj | hj <;> exact ClosePhase.noConfusion hj
      · simp only [updCalls_other _ _ _ _ hji] at hj
        exact I2 j hj
    · intro hna j
      by_cases hji : j = i
      · subst hji
        simp only [updCalls_same]
        exact ⟨fun hc => ClosePhase.noConfusion hc, fun hc => ClosePhase.noConfusion hc⟩
      · simp only [updCalls_other _ _ _ _ hji]
        exact I3 hna j
    · intro j k hj hk
      by_cases hji : j = i
      · subst hji
        simp only [updCalls_same] at hj
        rcases hj with hj | hj <;> exact ClosePhase.noConfusion hj
      · by_cases hki : k = i
        · subst hki
          simp only [updCalls_same] at hk
          rcases hk with hk | hk <;> exact ClosePhase.noConfusion hk
        · simp only [updCalls_other _ _ _ _ hji] at hj
          simp only [updCalls_other _ _ _ _ hki] at hk
          exact I4 j k hj hk
    · intro j hjmem
      have hq := I5 j hjmem
      have hji : j ≠ i := by
        intro hji
        subst hji
        rw [hidle] at hq
        exact ClosePhase.noConfusion hq
      simp only [updCalls_other _ _ _ _ hji]
      exact hq
    · exact I6
  | dispatchClose i rest hnext hq =>
    have hnd : i ∉ rest ∧ rest.Nodup := by
      have h6 := I6
      rw [hq] at h6
      exact List.nodup_cons.mp h6
    refine ⟨?_, ?_, ?_, ?_, ?_, ?_⟩
    · intro j hj
      by_cases hji : j = i
      · subst hji
        simp only [updCalls_same] at hj
        exact ClosePhase.noConfusion hj
      · simp only [updCalls_other _ _ _ _ hji] at hj
        exact I1 j hj
    · intro j _
      exact Nat.le_add_left 1 st.bizCloseRuns
    · intro hna
      exact Bool.noConfusion hna
    · intro j k hj hk
      by_cases hji : j = i
      · by_cases hki : k = i
        · rw [hji, hki]
        · simp only [updCalls_other _ _ _ _ hki] at hk
          rcases hk with hk | hk
          · exact absurd hk (I3 hnext k).1
          · exact absurd hk (I3 hnext k).2
      · simp only [updCalls_other _ _ _ _ hji] at hj
        rcases hj with hj | hj
        · exact absurd hj (I3 hnext j).1
        · exact absurd hj (I3 hnext j).2
    · intro j hjmem
      have hmem : j ∈ st.queue := by
        rw [hq]
        exact List.mem_cons_of_mem _ hjmem
      have hji : j ≠ i := fun hji => hnd.1 (hji ▸ hjmem)
      simp only [updCalls_other _ _ _ _ hji]
      exact I5 j hmem
    · exact hnd.2
  | dispatchEmpty hnext hq =>
    refine ⟨I1, I2, ?_, I4, I5, I6⟩
    intro hna
    exact Bool.noConfusion hna
  | finishClose i hrep =>
    refine ⟨?_, ?_, ?_, ?_, ?_, ?_⟩
    · intro j _
      rfl
    · intro j hj
      by_cases hji : j = i
      · subst hji
        exact I2 j (Or.inl hrep)
      · simp only [updCalls_other _ _ _ _ hji] at hj
        exact I2 j hj
    · intro hna
      exact absurd hrep (I3 hna i).1
    · intro j k hj hk
      have hj' : st.calls j = .replied ∨ st.calls j = .done := by
        by_cases hji : j = i
        · subst hji
          exact Or.inl hrep
        · simp only [updCalls_other _ _ _ _ hji] at hj
          exact hj
      have hk' : st.calls k = .replied ∨ st.calls k = .done := by
        by_cases hki : k = i
        · subst hki
          exact Or.inl hrep
        · simp only [updCalls_other _ _ _ _ hki] at hk
          exact hk
      exact I4 j k hj' hk'
    · intro j hjmem
      have hqj := I5 j hjmem
      have hji : j ≠ i := by
        intro hji
        subst hji
        rw [hrep] at hqj
        exact ClosePhase.noConfusion hqj
      simp only [updCalls_other _ _ _ _ hji]
      exact hqj
    · exact I6

theorem closeInv_reachable {st : RequestSystem} (h : CloseReachable st) :
    closeInv st := by
  induction h with
  | init => exact closeInv_init
  | step _ hs ih => exact closeInv_step ih hs

theorem closeState3_reachable : CloseReachable closeState3 :=
  CloseReachable.step
    (CloseReachable.step
      (CloseReachable.step CloseReachable.init
        (CloseStep.arriveFound initRequestSystem 0 rfl rfl))
      (CloseStep.dispatchClose closeState1 0 [] rfl rfl))
    (CloseStep.finishClose closeState2 0 (by decide))

/-- C4: Close is idempotent from the remote caller's perspective: in every
reachable state of the close protocol at most one Close call has ever
completed successfully; once one has completed, the Request's object path no
longer resolves (the registration is gone); from an unregistered state an
arriving Close can only end as object-not-found, never as a second success;
and terminal phases are absorbing, so each Close call produces exactly one
reply. -/
theorem C4_close_idempotent (st : RequestSystem) (h : CloseReachable st) :
    (∀ i j, st.calls i = .done → st.calls j = .done → i = j) ∧
    ((∃ i, st.calls i = .done) → st.registered = false) ∧
    (∀ st' i, CloseStep st st' → st.registered = false → st.calls i = .idle →
      st'.calls i = .idle ∨ st'.calls i = .notFound) ∧
    (∀ st' i, CloseStep st st' →
      (st.calls i = .done → st'.calls i = .done) ∧
      (st.calls i = .notFound → st'.calls i = .notFound)) := by
  obtain ⟨I1, I2, I3, I4, I5, I6⟩ := closeInv_reachable h
  refine ⟨?_, ?_, ?_, ?_⟩
  · intro i j hi hj
    exact I4 i j (Or.inr hi) (Or.inr hj)
  · rintro ⟨i, hi⟩
    exact I1 i hi
  · intro st' i hs hreg hidle
    cases hs with
    | arriveFound j hj hr =>
      rw [hreg] at hr
      exact Bool.noConfusion hr
    | arriveNotFound j hj hr =>
      by_cases hij : i = j
      · subst hij
        right
        exact updCalls_same _ _ _
      · left
        simp only [updCalls_other _ _ _ _ hij]
        exact hidle
    | dispatchClose j rest hnext hq =>
      left
      have hij : i ≠ j := by
        intro hij
        subst hij
        have hmem := I5 i (by rw [hq]; exact List.mem_cons_self i rest)
        rw [hidle] at hmem
        exact ClosePhase.noConfusion hmem
      simp only [updCalls_other _ _ _ _ hij]
      exact hidle
    | dispatchEmpty hnext hq =>
      left
      exact hidle
    | finishClose j hrep =>
      left
      have hij : i ≠ j := by
        intro hij
        subst hij
        rw [hidle] at hrep
        exact ClosePhase.noConfusion hrep
      simp only [updCalls_other _ _ _ _ hij]
      exact hidle
  · intro st' i hs
    refine ⟨?_, ?_⟩
    · intro hi
      cases hs with
      | arriveFound j hj hr =>
        have hij : i ≠ j := by
          intro hij
          subst hij
          rw [hi] at hj
          exact ClosePhase.noConfusion hj
        simp only [updCalls_other _ _ _ _ hij]
        exact hi
      | arriveNotFound j hj hr =>
        have hij : i ≠ j := by
          intro hij
          subst hij
          rw [hi] at hj
          exact ClosePhase.noConfusion hj
        simp only [updCalls_other _ _ _ _ hij]
        exact hi
      | dispatchClose j rest hnext hq =>
        have hjq := I5 j (by rw [hq]; exact List.mem_cons_self j rest)
        have hij : i ≠ j := by
          intro hij
          subst hij
          rw [hi] at hjq
          exact ClosePhase.noConfusion hjq
        simp only [updCalls_other _ _ _ _ hij]
        exact hi
      | dispatchEmpty hnext hq =>
        exact hi
      | finishClose j hrep =>
        have hij : i ≠ j := by
          intro hij
          subst hij
          rw [hi] at hrep
          exact ClosePhase.noConfusion hrep
        simp only [updCalls_other _ _ _ _ hij]
        exact hi
    · intro hi
      cases hs with
      | arriveFound j hj hr =>
        have hij : i ≠ j := by
          intro hij
          subst hij
          rw [hi] at hj
          exact ClosePhase.noConfusion hj
        simp only [updCalls_other _ _ _ _ hij]
        exact hi
      | arriveNotFound j hj hr =>
        have hij : i ≠ j := by
          intro hij
          subst hij
          rw [hi] at hj
          exact ClosePhase.noConfusion hj
        simp only [updCalls_other _ _ _ _ hij]
        exact hi
      | dispatchClose j rest hnext hq =>
        have hjq := I5 j (by rw [hq]; exact List.mem_cons_self j rest)
        have hij : i ≠ j := by
          intro hij
          subst hij
          rw [hi] at hjq
          exact ClosePhase.noConfusion hjq
        simp only [updCalls_other _ _ _ _ hij]
        exact hi
      | dispatchEmpty hnext hq =>
        exact hi
      | finishClose j hrep =>
        have hij : i ≠ j := by
          intro hij
          subst hij
          rw [hi] at hrep
          exact ClosePhase.noConfusion hrep
        simp only [updCalls_other _ _ _ _ hij]
        exact hi

/-- C4 witness: the theorem applied to the concrete reachable state in which
the first Close has completed. -/
theorem C4_close_idempotent_witness :
    CloseReachable closeState3 ∧
    (∀ i j, closeState3.calls i = .done → closeState3.calls j = .done → i = j) ∧
    ((∃ i, closeState3.calls i = .done) → closeState3.registered = false) ∧
    (∀ st' i, CloseStep closeState3 st' → closeState3.registered = false →
      closeState3.calls i = .idle →
      st'.calls i = .idle ∨ st'.calls i = .notFound) ∧
    (∀ st' i, CloseStep closeState3 st' →
      (closeState3.calls i = .done → st'.calls i = .done) ∧
      (closeState3.calls i = .notFound → st'.calls i = .notFound)) :=
  ⟨closeState3_reachable, C4_close_idempotent closeState3 closeState3_reachable⟩

/-- C5: whenever a Close call has been answered — its oneshot filled
(replied) or its handler fully returned (done) — the business logic's
close() has already run to completion; and the only step resuming a queued
Close is the Request::next step, which runs imp.close() to completion before
filling the oneshot the suspended handler awaits. -/
theorem C5_close_awaits_business_close (st : RequestSystem)
    (h : CloseReachable st) :
    (∀ i, st.calls i = .replied ∨ st.calls i = .done → 1 ≤ st.bizCloseRuns) ∧
    (∀ st' i, CloseStep st st' → st.calls i = .queued →
      st'.calls i = .replied → st'.bizCloseRuns = st.bizCloseRuns + 1) := by
  obtain ⟨I1, I2, I3, I4, I5, I6⟩ := closeInv_reachable h
  refine ⟨I2, ?_⟩
  intro st' i hs hq hr
  cases hs with
  | arriveFound j hj hreg =>
    by_cases hij : i = j
    · subst hij
      simp only [updCalls_same] at hr
      exact ClosePhase.noConfusion hr
    · simp only [updCalls_other _ _ _ _ hij] at hr
      simp [hq] at hr
  | arriveNotFound j hj hreg =>
    by_cases hij : i = j
    · subst hij
      simp only [updCalls_same] at hr
      exact ClosePhase.noConfusion hr
    · simp only [updCalls_other _ _ _ _ hij] at hr
      simp [hq] at hr
  | dispatchClose j rest hnext hqe =>
    by_cases hij : i = j
    · rfl
    · simp only [updCalls_other _ _ _ _ hij] at hr
      simp [hq] at hr
  | dispatchEmpty hnext hqe =>
    simp [hq] at hr
  | finishClose j hrep =>
    by_cases hij : i = j
    · subst hij
      simp only [updCalls_same] at hr
      exact ClosePhase.noConfusion hr
    · simp only [updCalls_other _ _ _ _ hij] at hr
      simp [hq] at hr

/-- C5 witness: the theorem applied to the concrete reachable state in which
the first Close has completed after one business close(). -/
theorem C5_close_awaits_business_close_witness :
    CloseReachable closeState3 ∧
    ((∀ i, closeState3.calls i = .replied ∨ closeState3.calls i = .done →
      1 ≤ closeState3.bizCloseRuns) ∧
    (∀ st' i, CloseStep closeState3 st' → closeState3.calls i = .queued →
      st'.calls i = .replied →
      st'.bizCloseRuns = closeState3.bizCloseRuns + 1)) :=
  ⟨closeState3_reachable,
   C5_close_awaits_business_close closeState3 closeState3_reachable⟩

/-! ### C10 -/

theorem memchr0_concat_iff (l : List Nat) :
    (∃ i, memchr0 l = some i ∧ i + 1 = l.length) ↔
      ∃ p, l = p ++ [0] ∧ ¬ 0 ∈ p := by
  induction l with
  | nil =>
    constructor
    · rintro ⟨i, hi, _⟩
      simp [memchr0] at hi
    · rintro ⟨p, hp, _⟩
      cases p <;> simp at hp
  | cons b rest ih =>
    by_cases hb : b = 0
    · subst hb
      cases rest with
      | nil =>
        constructor
        · intro _
          exact ⟨[], rfl, by simp⟩
        · intro _
          refine ⟨0, ?_, rfl⟩
          simp [memchr0]
      | cons c rs =>
        constructor
        · rintro ⟨i, hi, hlen⟩
          have h0 : memchr0 (0 :: c :: rs) = some 0 := by simp [memchr0]
          rw [h0] at hi
          injection hi with h
          subst h
          simp at hlen
        · rintro ⟨p, hp, hnp⟩
          cases p with
          | nil => simp at hp
          | cons q qs =>
            rw [List.cons_append] at hp
            injection hp with h1 h2
            subst h1
            exact absurd (List.mem_cons_self 0 qs) hnp
    · constructor
      · rintro ⟨i, hi, hlen⟩
        have hm : memchr0 (b :: rest) = (memchr0 rest).map (· + 1) := by
          simp [memchr0, hb]
        rw [hm] at hi
        rcases ho : memchr0 rest with _ | i'
        · rw [ho] at hi
          simp at hi
        · rw [ho] at hi
          simp at hi
          have hlen' : i' + 1 = rest.length := by
            simp at hlen
            omega
          obtain ⟨p, hp, hnp⟩ := ih.mp ⟨i', ho, hlen'⟩
          refine ⟨b :: p, ?_, ?_⟩
          · rw [List.cons_append, hp]
          · intro hmem
            rcases List.mem_cons.mp hmem with h0 | h0
            · exact hb h0.symm
            · exact hnp h0
      · rintro ⟨p, hp, hnp⟩
        cases p with
        | nil =>
          simp at hp
          exact absurd hp.1 hb
        | cons q qs =>
          rw [List.cons_append] at hp
          injection hp with h1 h2
          subst h1
          have hnq : ¬ 0 ∈ qs := fun hm => hnp (List.mem_cons_of_mem _ hm)
          obtain ⟨i', hi', hlen'⟩ := ih.mpr ⟨qs, h2, hnq⟩
          refine ⟨i' + 1, ?_, ?_⟩
          · simp [memchr0, hb, hi']
          · simp only [List.length_cons]
            omega

theorem concat_nul_iff_count (l : List Nat) :
    (∃ p, l = p ++ [0] ∧ ¬ 0 ∈ p) ↔
      l.count 0 = 1 ∧ l.getLast? = some 0 := by
  constructor
  · rintro ⟨p, rfl, hnp⟩
    constructor
    · rw [List.count_append, List.count_eq_zero.mpr hnp]
      simp
    · exact List.getLast?_concat p
  · rintro ⟨hc, hl⟩
    have hne : l ≠ [] := by
      rintro rfl
      simp at hl
    have hg : l.getLast hne = 0 := by
      have hsome := List.getLast?_eq_getLast l hne
      rw [hsome] at hl
      injection hl with h
    have hdecomp : l = l.dropLast ++ [0] := by
      conv_lhs => rw [← List.dropLast_append_getLast hne]
      rw [hg]
    refine ⟨l.dropLast, hdecomp, ?_⟩
    intro hmem
    have hcount : l.count 0 = l.dropLast.count 0 + 1 := by
      conv_lhs => rw [hdecomp]
      rw [List.count_append]
      simp
    have hzero : l.dropLast.count 0 ≠ 0 := fun h0 =>
      (List.count_eq_zero.mp h0) hmem
    omega

/-- C10: deserializing a FileName from a byte array succeeds iff the array
carries exactly one NUL byte and it is the final byte; on success the
FileName interpreted as a path is exactly the bytes without the trailing NUL;
and on every other byte array deserialization returns the error rather than a
value. -/
theorem C10_filename_nul_terminated (bytes : List Nat) :
    ((∃ f, FileName.deserialize bytes = .ok f) ↔
      bytes.count 0 = 1 ∧ bytes.getLast? = some 0) ∧
    (∀ f, FileName.deserialize bytes = .ok f → f.asPath = bytes.dropLast) ∧
    ((bytes.count 0 = 1 ∧ bytes.getLast? = some 0) ∨
      FileName.deserialize bytes = .error "Bytes are not null-terminated") := by
  have hiff : (∃ f, FileName.deserialize bytes = .ok f) ↔
      (∃ i, memchr0 bytes = some i ∧ i + 1 = bytes.length) := by
    rcases h : memchr0 bytes with _ | i
    · simp [FileName.deserialize, fromVecWithNul, h]
    · by_cases hlen : i + 1 = bytes.length
      · simp [FileName.deserialize, fromVecWithNul, h, hlen]
      · simp [FileName.deserialize, fromVecWithNul, h, hlen]
  have htotal : (∃ f, FileName.deserialize bytes = .ok f) ↔
      bytes.count 0 = 1 ∧ bytes.getLast? = some 0 :=
    hiff.trans ((memchr0_concat_iff bytes).trans (concat_nul_iff_count bytes))
  refine ⟨htotal, ?_, ?_⟩
  · intro f hf
    rcases h2 : memchr0 bytes with _ | i
    · simp [FileName.deserialize, fromVecWithNul, h2] at hf
    · by_cases hlen : i + 1 = bytes.length
      · have hok : FileName.deserialize bytes = .ok ⟨bytes.dropLast⟩ := by
          simp [FileName.deserialize, fromVecWithNul, h2, hlen]
        rw [hok] at hf
        injection hf with h3
        rw [← h3]
        rfl
      · simp [FileName.deserialize, fromVecWithNul, h2, hlen] at hf
  · rcases h2 : memchr0 bytes with _ | i
    · right
      simp [FileName.deserialize, fromVecWithNul, h2]
    · by_cases hlen : i + 1 = bytes.length
      · left
        exact ((memchr0_concat_iff bytes).trans (concat_nul_iff_count bytes)).mp
          ⟨i, h2, hlen⟩
      · right
        simp [FileName.deserialize, fromVecWithNul, h2, hlen]

/-- C10 witness: the theorem evaluated at the concrete byte array
[104, 105, 0] — the bytes of "hi" with a trailing NUL. -/
theorem C10_filename_nul_terminated_witness :
    ((∃ f, FileName.deserialize [104, 105, 0] = .ok f) ↔
      ([104, 105, 0] : List Nat).count 0 = 1 ∧
        ([104, 105, 0] : List Nat).getLast? = some 0) ∧
    (∀ f, FileName.deserialize [104, 105, 0] = .ok f →
      f.asPath = ([104, 105, 0] : List Nat).dropLast) ∧
    ((([104, 105, 0] : List Nat).count 0 = 1 ∧
        ([104, 105, 0] : List Nat).getLast? = some 0) ∨
      FileName.deserialize [104, 105, 0] =
        .error "Bytes are not null-terminated") :=
  C10_filename_nul_terminated [104, 105, 0]

end Ashpd
